import Mathlib

/-!
Verification development for the Number Hunt party-game backend
(Django app under src/game/).  The data model (models.py) and the
round-lifecycle / scoring / leaderboard logic (views.py) are shallowly
embedded as executable Lean definitions; database rows become list
entries, timestamps become natural numbers, and each HTTP view becomes
a function from a game state to a result paired with the successor
state.  Randomness (question draw, imposter pick) is passed in as
explicit parameters, and the availability of the external question
pools is a boolean parameter, matching the spec treating content
stores as opaque external collaborators.
-/

namespace Game

/-- Room lifecycle status, from GameRoom.STATUS_CHOICES. -/
inductive RoomStatus
  | waiting
  | inProgress
  | finished
deriving DecidableEq

/-- Round phase, from GameRound.STATUS_CHOICES. -/
inductive RoundPhase
  | setup
  | answering
  | discussion
  | voting
  | results
  | finished
deriving DecidableEq

/-- Per-round role, from PlayerGameStats.ROLE_CHOICES. -/
inductive Role
  | imposter
  | detective
deriving DecidableEq

/-- Per-round result, from PlayerGameStats.RESULT_CHOICES. -/
inductive GameResult
  | win
  | loss
deriving DecidableEq

/-- User row: the identity-level aggregate counters (models.User). -/
structure User where
  uid : Nat
  total_games : Int
  total_wins : Int
  total_imposter_wins : Int
  total_detective_wins : Int
  total_score : Int
deriving DecidableEq

/-- Player row: membership of a user in a room (models.Player).
Rows are identified by an autoincrement id pid; the unique_together
constraint on (user, room) is maintained by the operations. -/
structure Player where
  pid : Nat
  userId : Nat
  nickname : String
  score : Int
  is_connected : Bool
  last_active : Nat
deriving DecidableEq

/-- GameRound row (models.GameRound), restricted to the fields the
round lifecycle reads and writes. -/
structure GameRound where
  roundId : Nat
  round_number : Nat
  imposterPid : Nat
  status : RoundPhase
  discussion_started_at : Option Nat
  voting_started_at : Option Nat
  finished_at : Option Nat
deriving DecidableEq

/-- PlayerAnswer row (models.PlayerAnswer); unique on (round, player). -/
structure PlayerAnswer where
  roundId : Nat
  playerPid : Nat
  answer : Int
deriving DecidableEq

/-- Vote row (models.Vote); unique on (round, voter). -/
structure Vote where
  roundId : Nat
  voterPid : Nat
  accusedPid : Nat
deriving DecidableEq

/-- PlayerGameStats row (models.PlayerGameStats): the per-player
per-round outcome ledger written by end_round. -/
structure PlayerGameStats where
  playerPid : Nat
  round_number : Nat
  role : Role
  result : GameResult
  points_earned : Int
  was_voted_out : Bool
  correct_votes : Nat
deriving DecidableEq

/-- GameRoom row (models.GameRoom), restricted to the fields the core
logic reads and writes. -/
structure GameRoom where
  hostUid : Nat
  status : RoomStatus
  max_players : Nat
  current_round : Nat
  total_rounds : Nat
deriving DecidableEq

/-- The durable store for one room and its satellite rows.  The views
under scrutiny each operate on a single room fetched by id, so the
embedding carries one room together with its players, rounds, answers,
votes and outcome ledger, plus the user rows of its members.  Lists
keep primary-key (insertion) order, which is the iteration order of
the unordered Django querysets used by the game logic. -/
structure GameState where
  room : GameRoom
  users : List User
  players : List Player
  rounds : List GameRound
  answers : List PlayerAnswer
  votes : List Vote
  stats : List PlayerGameStats
  nextPid : Nat
  nextRoundId : Nat
deriving DecidableEq

/-! ### Vote tabulation (end_round, views.py lines 393-412)

The Python code accumulates a dict from accused id to count by
iterating the round's votes in primary-key order, then takes
max(vote_counts.keys(), key=...), which returns the first key (in
dict insertion order) whose count is not exceeded later. -/

/-- One step of the tally dict update: increment the count of key k,
inserting it at the end when absent (Python dict insertion order). -/
def bumpTally (k : Nat) : List (Nat × Nat) → List (Nat × Nat)
  | [] => [(k, 1)]
  | (k', c) :: rest =>
      if k = k' then (k', c + 1) :: rest else (k', c) :: bumpTally k rest

/-- Accumulate the vote_counts dict over the votes in order. -/
def tallyAux (acc : List (Nat × Nat)) : List Vote → List (Nat × Nat)
  | [] => acc
  | v :: vs => tallyAux (bumpTally v.accusedPid acc) vs

/-- vote_counts as built by end_round: association list in insertion
order from accused player id to number of votes received. -/
def tallyVotes (votes : List Vote) : List (Nat × Nat) :=
  tallyAux [] votes

/-- Tail of Python max over the tally keys with the count as key
function: keeps the current best and replaces it only on a strictly
larger count. -/
def maxByCountGo (bk bc : Nat) : List (Nat × Nat) → Nat
  | [] => bk
  | (k, c) :: rest =>
      if bc < c then maxByCountGo k c rest else maxByCountGo bk bc rest

/-- Python max(vote_counts.keys(), key=lambda k: vote_counts[k]),
returning none on an empty dict (the code only calls max when
vote_counts is nonempty). -/
def max_by_count : List (Nat × Nat) → Option Nat
  | [] => none
  | (k, c) :: rest => some (maxByCountGo k c rest)

/-- Specification-side helper: the largest count appearing in a tally. -/
def maxCount (t : List (Nat × Nat)) : Nat :=
  t.foldr (fun p m => Nat.max p.2 m) 0

/-- Specification-side helper: the first occurrence order of a list of
keys, i.e. the key order of a Python dict built by repeated updates. -/
def firstOccurrences : List Nat → List Nat
  | [] => []
  | k :: ks => k :: (firstOccurrences ks).filter (fun k' => k' ≠ k)

/-! ### End of round scoring (end_round, views.py lines 388-493) -/

/-- The votes of a round in primary-key order (game_round.votes.all()). -/
def roundVotes (st : GameState) (roundId : Nat) : List Vote :=
  st.votes.filter (fun v => v.roundId == roundId)

/-- The accumulated vote_counts dict of a round. -/
def roundTally (st : GameState) (r : GameRound) : List (Nat × Nat) :=
  tallyVotes (roundVotes st r.roundId)

/-- most_voted_player (by id): Python max over the tally, none when no
votes were cast. -/
def mostVotedOf (st : GameState) (r : GameRound) : Option Nat :=
  max_by_count (roundTally st r)

/-- imposter_caught: true exactly when the most voted player exists
and equals the round's imposter. -/
def imposterCaughtOf (st : GameState) (r : GameRound) : Bool :=
  match mostVotedOf st r with
  | some mv => mv == r.imposterPid
  | none => false

/-- game_round.votes.filter(voter=player).first(): the vote cast by a
player in a round, if any. -/
def voteOf (st : GameState) (r : GameRound) (p : Player) : Option Vote :=
  (roundVotes st r.roundId).find? (fun v => v.voterPid == p.pid)

/-- The per-player branch of the scoring loop: given whether the
player is the imposter, whether the imposter was caught, and the
player's vote, returns (points_earned, result, correct_votes) exactly
as computed by end_round.  Note the one-point branch leaves result at
its initial value of loss. -/
def scoreBranch (isImposter : Bool) (caught : Bool)
    (vote : Option Vote) (imposterPid : Nat) : Int × GameResult × Nat :=
  if isImposter then
    if !caught then (3, GameResult.win, 0) else (0, GameResult.loss, 0)
  else
    match vote with
    | none => (0, GameResult.loss, 0)
    | some v =>
        if caught && v.accusedPid == imposterPid then
          (2, GameResult.win, 1)
        else if !caught && v.accusedPid != imposterPid then
          (1, GameResult.loss, 1)
        else
          (0, GameResult.loss, 0)

/-- The scoring data end_round computes for one connected player. -/
def scoreOf (st : GameState) (r : GameRound) (p : Player) : Int × GameResult × Nat :=
  scoreBranch (p.pid == r.imposterPid) (imposterCaughtOf st r) (voteOf st r p) r.imposterPid

/-- The PlayerGameStats row end_round creates for one connected player. -/
def statFor (st : GameState) (r : GameRound) (p : Player) : PlayerGameStats :=
  let s := scoreOf st r p
  { playerPid := p.pid
    round_number := r.round_number
    role := if p.pid == r.imposterPid then Role.imposter else Role.detective
    result := s.2.1
    points_earned := s.1
    was_voted_out := mostVotedOf st r == some p.pid
    correct_votes := s.2.2 }

/-- The identity-level counter updates end_round applies to the user
of one connected player (all four fields are in update_fields of the
save call, so all persist). -/
def applyUserDelta (st : GameState) (r : GameRound) (p : Player) (u : User) : User :=
  let s := scoreOf st r p
  let isImp := p.pid == r.imposterPid
  let caught := imposterCaughtOf st r
  { u with
    total_wins := u.total_wins + (if s.2.1 = GameResult.win then 1 else 0)
    total_score := u.total_score + s.1
    total_imposter_wins :=
      u.total_imposter_wins + (if isImp && !caught then 1 else 0)
    total_detective_wins :=
      u.total_detective_wins + (if !isImp && s.2.1 = GameResult.win then 1 else 0) }

/-- The result dict returned by end_round. -/
structure RoundResult where
  imposter_caught : Bool
  most_voted_player : Option Nat
  vote_counts : List (Nat × Nat)
deriving DecidableEq

/-- end_round: tabulate the votes, score every currently connected
player (updating player scores, user aggregates and the outcome
ledger in one transaction), then set the round to results and stamp
its finish time. -/
def end_round (st : GameState) (r : GameRound) (now : Nat) : RoundResult × GameState :=
  let caught := imposterCaughtOf st r
  let mv := mostVotedOf st r
  let connected := st.players.filter (fun p => p.is_connected)
  let players' := st.players.map (fun p =>
    if p.is_connected then { p with score := p.score + (scoreOf st r p).1 } else p)
  let users' := st.users.map (fun u =>
    match connected.find? (fun p => p.userId == u.uid) with
    | some p => applyUserDelta st r p u
    | none => u)
  let stats' := st.stats ++ connected.map (fun p => statFor st r p)
  let rounds' := st.rounds.map (fun r' =>
    if r'.roundId == r.roundId then
      { r' with status := RoundPhase.results, finished_at := some now }
    else r')
  (⟨caught, mv, roundTally st r⟩,
   { st with players := players', users := users', stats := stats', rounds := rounds' })

/-! ### Room / player registry (models.py, views.py) -/

/-- GameRoom.player_count: count of ALL player rows of the room,
connected or not (room.players.count()). -/
def player_count (st : GameState) : Nat :=
  st.players.length

/-- Count of currently connected players
(room.players.filter(is_connected=True).count()). -/
def connectedCount (st : GameState) : Nat :=
  (st.players.filter (fun p => p.is_connected)).length

/-- GameRoom.can_start (models.py lines 125-126). -/
def can_start (st : GameState) : Bool :=
  player_count st ≥ 3 && st.room.status == RoomStatus.waiting

/-- GameRoom.can_user_join (models.py lines 128-142). -/
def can_user_join (st : GameState) (uid : Nat) : Bool :=
  if st.room.status == RoomStatus.finished then false
  else if st.players.any (fun p => p.userId == uid) then true
  else if st.room.status == RoomStatus.inProgress then false
  else player_count st < st.room.max_players

/-- Player row lookup by user id (Player.objects.get(user=..., room=...)). -/
def findPlayerByUid (st : GameState) (uid : Nat) : Option Player :=
  st.players.find? (fun p => p.userId == uid)

/-- Player row lookup by primary key within the room. -/
def findPlayerByPid (st : GameState) (pid : Nat) : Option Player :=
  st.players.find? (fun p => p.pid == pid)

/-- Player.update_activity persisted to the store: the save call uses
update_fields consisting of last_active only, so only that column is
written. -/
def touchActivity (st : GameState) (pid : Nat) (now : Nat) : GameState :=
  { st with players := st.players.map (fun p =>
      if p.pid == pid then { p with last_active := now } else p) }

/-- Outcome of the join_room view. -/
inductive JoinResult
  | gameFinished
  | inProgressNotMember
  | roomFull
  | invalidNickname
  | joined
  | reconnected
deriving DecidableEq

/-- join_room (views.py lines 196-265).  When the player row already
exists the view assigns is_connected and nickname on the in-memory
object but then only calls update_activity, whose save writes the
last_active column alone; so the durable store keeps the old
is_connected and nickname values.  A fresh join inserts a connected
row. -/
def join_room (st : GameState) (uid : Nat) (nickname : String) (now : Nat) :
    JoinResult × GameState :=
  if !can_user_join st uid then
    if st.room.status == RoomStatus.finished then (JoinResult.gameFinished, st)
    else if st.room.status == RoomStatus.inProgress then
      match findPlayerByUid st uid with
      | some p => (JoinResult.reconnected, touchActivity st p.pid now)
      | none => (JoinResult.inProgressNotMember, st)
    else (JoinResult.roomFull, st)
  else if nickname.length = 0 || nickname.length > 50 then
    (JoinResult.invalidNickname, st)
  else
    match findPlayerByUid st uid with
    | some p => (JoinResult.reconnected, touchActivity st p.pid now)
    | none =>
        (JoinResult.joined,
         { st with
             players := st.players ++
               [{ pid := st.nextPid, userId := uid, nickname := nickname,
                  score := 0, is_connected := true, last_active := now }]
             nextPid := st.nextPid + 1 })

/-- Outcome of the leave_room view. -/
inductive LeaveResult
  | notMember
  | left
deriving DecidableEq

/-- leave_room (views.py lines 318-341): soft leave, flips the
connection flag with a full save. -/
def leave_room (st : GameState) (uid : Nat) : LeaveResult × GameState :=
  match findPlayerByUid st uid with
  | none => (LeaveResult.notMember, st)
  | some p =>
      (LeaveResult.left,
       { st with players := st.players.map (fun q =>
           if q.pid == p.pid then { q with is_connected := false } else q) })

/-! ### Round orchestration (views.py) -/

/-- start_round (views.py lines 348-385).  The draws from the two
question pools are modelled by the boolean questionsAvailable (the
content stores are opaque external collaborators per the spec), the
random imposter choice by the index pick into the connected players.
Creating a round whose (room, round_number) already exists violates
the unique_together constraint; all three failure modes surface as an
exception, modelled as none. -/
def start_round (st : GameState) (round_number : Nat)
    (questionsAvailable : Bool) (pick : Nat) : Option GameState :=
  if !questionsAvailable then none
  else if st.rounds.any (fun r => r.round_number == round_number) then none
  else
    match st.players.filter (fun p => p.is_connected) with
    | [] => none
    | c :: cs =>
        let imposter := (c :: cs).getD (pick % (c :: cs).length) c
        some { st with
          rounds := st.rounds ++
            [{ roundId := st.nextRoundId, round_number := round_number,
               imposterPid := imposter.pid, status := RoundPhase.answering,
               discussion_started_at := none, voting_started_at := none,
               finished_at := none }]
          nextRoundId := st.nextRoundId + 1 }

/-- Outcome of the start_game view. -/
inductive StartGameResult
  | notHost
  | cannotStart
  | serverError
  | started
deriving DecidableEq

/-- start_game (views.py lines 286-315).  The whole body runs inside
transaction.atomic, so a start_round failure rolls everything back. -/
def start_game (st : GameState) (uid : Nat)
    (questionsAvailable : Bool) (pick : Nat) : StartGameResult × GameState :=
  if st.room.hostUid != uid then (StartGameResult.notHost, st)
  else if !can_start st then (StartGameResult.cannotStart, st)
  else
    let st1 := { st with room := { st.room with
                   status := RoomStatus.inProgress, current_round := 1 } }
    match start_round st1 1 questionsAvailable pick with
    | some st2 => (StartGameResult.started, st2)
    | none => (StartGameResult.serverError, st)

/-- The round indexed by room.current_round
(get_object_or_404(GameRound, room=room, round_number=room.current_round)). -/
def currentRound (st : GameState) : Option GameRound :=
  st.rounds.find? (fun r => r.round_number == st.room.current_round)

/-- Outcome of the submit_answer view. -/
inductive SubmitAnswerResult
  | roundNotFound
  | wrongPhase
  | notMember
  | accepted
deriving DecidableEq

/-- PlayerAnswer.objects.update_or_create keyed on (round, player):
update the existing row in place, else append. -/
def upsertAnswer (answers : List PlayerAnswer) (roundId pid : Nat) (value : Int) :
    List PlayerAnswer :=
  if answers.any (fun a => a.roundId == roundId && a.playerPid == pid) then
    answers.map (fun a =>
      if a.roundId == roundId && a.playerPid == pid then { a with answer := value } else a)
  else
    answers ++ [{ roundId := roundId, playerPid := pid, answer := value }]

/-- The answers of a round (game_round.answers). -/
def roundAnswers (st : GameState) (roundId : Nat) : List PlayerAnswer :=
  st.answers.filter (fun a => a.roundId == roundId)

/-- submit_answer (views.py lines 531-582): phase gate, activity
touch, answer upsert, then quorum check against the connected player
count with auto-transition to discussion. -/
def submit_answer (st : GameState) (uid : Nat) (value : Int) (now : Nat) :
    SubmitAnswerResult × GameState :=
  match currentRound st with
  | none => (SubmitAnswerResult.roundNotFound, st)
  | some r =>
      if r.status != RoundPhase.answering then (SubmitAnswerResult.wrongPhase, st)
      else
        match findPlayerByUid st uid with
        | none => (SubmitAnswerResult.notMember, st)
        | some p =>
            let st1 := touchActivity st p.pid now
            let st2 := { st1 with answers := upsertAnswer st1.answers r.roundId p.pid value }
            let connected := connectedCount st2
            let answered := (roundAnswers st2 r.roundId).length
            if answered ≥ connected then
              (SubmitAnswerResult.accepted,
               { st2 with rounds := st2.rounds.map (fun r' =>
                   if r'.roundId == r.roundId then
                     { r' with status := RoundPhase.discussion,
                               discussion_started_at := some now }
                   else r') })
            else (SubmitAnswerResult.accepted, st2)

/-- Outcome of the start_voting view. -/
inductive StartVotingResult
  | roundNotFound
  | notMember
  | wrongPhase
  | started
deriving DecidableEq

/-- start_voting (views.py lines 585-611): any room member may move a
round from discussion to voting. -/
def start_voting (st : GameState) (uid : Nat) (now : Nat) :
    StartVotingResult × GameState :=
  match currentRound st with
  | none => (StartVotingResult.roundNotFound, st)
  | some r =>
      match findPlayerByUid st uid with
      | none => (StartVotingResult.notMember, st)
      | some _ =>
          if r.status != RoundPhase.discussion then (StartVotingResult.wrongPhase, st)
          else
            (StartVotingResult.started,
             { st with rounds := st.rounds.map (fun r' =>
                 if r'.roundId == r.roundId then
                   { r' with status := RoundPhase.voting,
                             voting_started_at := some now }
                 else r') })

/-- Outcome of the submit_vote view. -/
inductive SubmitVoteResult
  | roundNotFound
  | wrongPhase
  | notMember
  | accusedNotFound
  | selfVote
  | accepted (votingComplete : Bool)
deriving DecidableEq

/-- Vote.objects.update_or_create keyed on (round, voter). -/
def upsertVote (votes : List Vote) (roundId voterPid accusedPid : Nat) : List Vote :=
  if votes.any (fun v => v.roundId == roundId && v.voterPid == voterPid) then
    votes.map (fun v =>
      if v.roundId == roundId && v.voterPid == voterPid then
        { v with accusedPid := accusedPid } else v)
  else
    votes ++ [{ roundId := roundId, voterPid := voterPid, accusedPid := accusedPid }]

/-- submit_vote (views.py lines 614-671): phase gate, then the voter
lookup immediately touches the voter's activity timestamp, and only
afterwards are the accused lookup and the self-vote check performed;
on success the vote is upserted and, when the vote count reaches the
connected player count, end_round runs synchronously. -/
def submit_vote (st : GameState) (uid : Nat) (accusedPid : Nat) (now : Nat) :
    SubmitVoteResult × GameState :=
  match currentRound st with
  | none => (SubmitVoteResult.roundNotFound, st)
  | some r =>
      if r.status != RoundPhase.voting then (SubmitVoteResult.wrongPhase, st)
      else
        match findPlayerByUid st uid with
        | none => (SubmitVoteResult.notMember, st)
        | some voter =>
            let st1 := touchActivity st voter.pid now
            match findPlayerByPid st1 accusedPid with
            | none => (SubmitVoteResult.accusedNotFound, st1)
            | some accused =>
                if voter.pid == accused.pid then (SubmitVoteResult.selfVote, st1)
                else
                  let st2 := { st1 with
                    votes := upsertVote st1.votes r.roundId voter.pid accused.pid }
                  let connected := connectedCount st2
                  let voted := (roundVotes st2 r.roundId).length
                  if voted ≥ connected then
                    (SubmitVoteResult.accepted true, (end_round st2 r now).2)
                  else (SubmitVoteResult.accepted false, st2)

/-- Outcome of the continue_to_next_round view. -/
inductive ContinueResult
  | notMember
  | gameEnded
  | nextRound (n : Nat)
  | serverError
deriving DecidableEq

/-- continue_to_next_round (views.py lines 674-717).  No phase or
status precondition beyond room membership: at current_round ≥
total_rounds the game ends (atomically, bumping every member user's
total_games); otherwise current_round is incremented AND SAVED before
start_round runs outside any transaction, so a start_round failure
leaves the increment durable with no matching round row. -/
def continue_to_next_round (st : GameState) (uid : Nat)
    (questionsAvailable : Bool) (pick : Nat) : ContinueResult × GameState :=
  match findPlayerByUid st uid with
  | none => (ContinueResult.notMember, st)
  | some _ =>
      if st.room.current_round ≥ st.room.total_rounds then
        (ContinueResult.gameEnded,
         { st with
             room := { st.room with status := RoomStatus.finished }
             users := st.users.map (fun u =>
               if st.players.any (fun p => p.userId == u.uid) then
                 { u with total_games := u.total_games + 1 }
               else u) })
      else
        let st1 := { st with room := { st.room with
                       current_round := st.room.current_round + 1 } }
        match start_round st1 st1.room.current_round questionsAvailable pick with
        | some st2 => (ContinueResult.nextRound st1.room.current_round, st2)
        | none => (ContinueResult.serverError, st1)

/-! ### Operation sequences over one room

The full request surface touching a room, for stating trace
invariants.  Parameters of each request (caller identity, payload,
clock, external randomness and content availability) ride on the
operation. -/

/-- One request against the room. -/
inductive Op
  | join (uid : Nat) (nickname : String) (now : Nat)
  | leave (uid : Nat)
  | startGame (uid : Nat) (questionsAvailable : Bool) (pick : Nat)
  | startVoting (uid : Nat) (now : Nat)
  | submitAnswer (uid : Nat) (value : Int) (now : Nat)
  | submitVote (uid : Nat) (accusedPid : Nat) (now : Nat)
  | continueNext (uid : Nat) (questionsAvailable : Bool) (pick : Nat)
deriving DecidableEq

/-- Apply one request to the store. -/
def step (st : GameState) : Op → GameState
  | Op.join uid nickname now => (join_room st uid nickname now).2
  | Op.leave uid => (leave_room st uid).2
  | Op.startGame uid qa pick => (start_game st uid qa pick).2
  | Op.startVoting uid now => (start_voting st uid now).2
  | Op.submitAnswer uid value now => (submit_answer st uid value now).2
  | Op.submitVote uid accusedPid now => (submit_vote st uid accusedPid now).2
  | Op.continueNext uid qa pick => (continue_to_next_round st uid qa pick).2

/-- Apply a request sequence left to right. -/
def runOps (st : GameState) : List Op → GameState
  | [] => st
  | op :: ops => runOps (step st op) ops

/-- create_room (views.py lines 159-184): fresh waiting room with the
host inserted as its first, connected player. -/
def initState (hostUid : Nat) (hostNickname : String)
    (maxPlayers totalRounds : Nat) : GameState :=
  { room := { hostUid := hostUid, status := RoomStatus.waiting,
              max_players := maxPlayers, current_round := 0,
              total_rounds := totalRounds }
    users := [{ uid := hostUid, total_games := 0, total_wins := 0,
                total_imposter_wins := 0, total_detective_wins := 0,
                total_score := 0 }]
    players := [{ pid := 0, userId := hostUid, nickname := hostNickname,
                  score := 0, is_connected := true, last_active := 0 }]
    rounds := [], answers := [], votes := [], stats := []
    nextPid := 1, nextRoundId := 0 }

/-- The round numbers present in the room, in creation order. -/
def roundNumbers (st : GameState) : List Nat :=
  st.rounds.map (fun r => r.round_number)

/-- The round-numbering invariant of the spec: the current round index
is within bounds and the existing rounds are numbered 1..current_round
with no gaps. -/
def RoundInv (st : GameState) : Prop :=
  st.room.current_round ≤ st.room.total_rounds ∧
  roundNumbers st = (List.range st.room.current_round).map (fun n => n + 1)

/-- A request avoids the durable-increment-without-round failure mode:
when a continueNext reaches the round-creation step, the question
pools are available and some player is connected. -/
def stepOk (st : GameState) : Op → Bool
  | Op.continueNext uid qa _ =>
      !(st.players.any (fun p => p.userId == uid) &&
        st.room.current_round < st.room.total_rounds) ||
      (qa && connectedCount st ≥ 1)
  | _ => true

/-- Every request of the trace satisfies stepOk in the state it runs in. -/
def okTrace (st : GameState) : List Op → Bool
  | [] => true
  | op :: ops => stepOk st op && okTrace (step st op) ops

/-! ### Leaderboard aggregation (update_leaderboards, views.py
lines 851-910)

One aggregation pass for a fixed period window.  The Django query
annotates every user with in-window counts from the PlayerGameStats
ledger, keeps those with at least one in-window game, orders by
(score desc, wins desc) and writes rank = position (enumerate from 1). -/

/-- A ledger row as seen by the aggregator: owning identity, creation
time and the scored fields. -/
structure StatRow where
  userId : Nat
  created_at : Nat
  role : Role
  result : GameResult
  points_earned : Int
deriving DecidableEq

/-- created_at__range is an inclusive interval. -/
def inWindow (s e : Nat) (row : StatRow) : Bool :=
  s ≤ row.created_at && row.created_at ≤ e

/-- One leaderboard entry before and after rank assignment. -/
structure LBEntry where
  userId : Nat
  total_games : Nat
  total_wins : Nat
  total_score : Int
  imposter_games : Nat
  imposter_wins : Nat
  detective_games : Nat
  detective_wins : Nat
  rank : Nat
deriving DecidableEq

/-- The per-identity annotation of the aggregation query over the
in-window ledger rows. -/
def aggregateUser (rows : List StatRow) (s e uid : Nat) : LBEntry :=
  let mine := rows.filter (fun row => row.userId == uid && inWindow s e row)
  { userId := uid
    total_games := mine.length
    total_wins := (mine.filter (fun row => row.result == GameResult.win)).length
    total_score := (mine.map (fun row => row.points_earned)).sum
    imposter_games := (mine.filter (fun row => row.role == Role.imposter)).length
    imposter_wins := (mine.filter (fun row =>
      row.role == Role.imposter && row.result == GameResult.win)).length
    detective_games := (mine.filter (fun row => row.role == Role.detective)).length
    detective_wins := (mine.filter (fun row =>
      row.role == Role.detective && row.result == GameResult.win)).length
    rank := 0 }

/-- The order_by key: score descending, then wins descending. -/
def lbLE (a b : LBEntry) : Bool :=
  b.total_score < a.total_score ||
  (a.total_score == b.total_score && b.total_wins ≤ a.total_wins)

/-- Insert into a list sorted by lbLE, keeping earlier entries first
on ties (a stable model of the SQL sort). -/
def lbInsert (x : LBEntry) : List LBEntry → List LBEntry
  | [] => [x]
  | y :: ys => if lbLE y x then y :: lbInsert x ys else x :: y :: ys

/-- Stable insertion sort by (score desc, wins desc). -/
def lbSort : List LBEntry → List LBEntry
  | [] => []
  | x :: xs => lbInsert x (lbSort xs)

/-- for rank, user in enumerate(user_stats, 1): rank is the position
in the sorted sequence. -/
def assignRanks (n : Nat) : List LBEntry → List LBEntry
  | [] => []
  | x :: xs => { x with rank := n } :: assignRanks (n + 1) xs

/-- One period window of update_leaderboards: aggregate every known
identity over the window, drop those with zero in-window games, sort
by (score desc, wins desc) and number the ranks from 1. -/
def updateLeaderboardPeriod (userIds : List Nat) (rows : List StatRow)
    (s e : Nat) : List LBEntry :=
  let entries := (userIds.map (aggregateUser rows s e)).filter
    (fun x => 0 < x.total_games)
  assignRanks 1 (lbSort entries)

/-! ### Concrete states used by witnesses and counterexamples -/

/-- A fresh user row with zeroed aggregates. -/
def mkUser (uid : Nat) : User := ⟨uid, 0, 0, 0, 0, 0⟩

/-- A player row with zero score and activity time. -/
def mkPlayer (pid uid : Nat) (nick : String) (conn : Bool) : Player :=
  ⟨pid, uid, nick, 0, conn, 0⟩

/-- Scenario B round: round 1, imposter is player 2, voting phase. -/
def rB : GameRound := ⟨0, 1, 2, RoundPhase.voting, none, none, none⟩

/-- Scenario B state: three connected players; votes P1 to P3,
P3 to P1, P2 to P1 in submission order. -/
def stB : GameState :=
  { room := ⟨1, RoomStatus.inProgress, 8, 1, 5⟩
    users := [mkUser 1, mkUser 2, mkUser 3]
    players := [mkPlayer 1 1 "P1" true, mkPlayer 2 2 "P2" true, mkPlayer 3 3 "P3" true]
    rounds := [rB]
    answers := []
    votes := [⟨0, 1, 3⟩, ⟨0, 3, 1⟩, ⟨0, 2, 1⟩]
    stats := []
    nextPid := 4, nextRoundId := 1 }

/-- A waiting room with three player rows of which one is disconnected. -/
def stC3 : GameState :=
  { room := ⟨1, RoomStatus.waiting, 8, 0, 5⟩
    users := [mkUser 1, mkUser 2, mkUser 3]
    players := [mkPlayer 0 1 "a" true, mkPlayer 1 2 "b" true, mkPlayer 2 3 "c" false]
    rounds := [], answers := [], votes := [], stats := []
    nextPid := 3, nextRoundId := 0 }

/-- A waiting room where user 2 already has a disconnected player row
with nickname old and stale activity time. -/
def stC5 : GameState :=
  { room := ⟨1, RoomStatus.waiting, 8, 0, 5⟩
    users := [mkUser 1, mkUser 2]
    players := [mkPlayer 0 1 "h" true, ⟨1, 2, "old", 0, false, 0⟩]
    rounds := [], answers := [], votes := [], stats := []
    nextPid := 2, nextRoundId := 0 }

/-- A three-player room with round 1 in the voting phase and no votes. -/
def stC6 : GameState :=
  { room := ⟨1, RoomStatus.inProgress, 8, 1, 5⟩
    users := [mkUser 1, mkUser 2, mkUser 3]
    players := [mkPlayer 1 1 "P1" true, mkPlayer 2 2 "P2" true, mkPlayer 3 3 "P3" true]
    rounds := [⟨0, 1, 2, RoundPhase.voting, none, none, none⟩]
    answers := [], votes := [], stats := []
    nextPid := 4, nextRoundId := 1 }

/-- Trace 1 for the round invariant: a room created with
total_rounds = 0 (the create serializer does not validate the bound),
filled and started. -/
def c7trace1 : GameState :=
  runOps (initState 1 "h" 8 0)
    [Op.join 2 "b" 1, Op.join 3 "c" 2, Op.startGame 1 true 0]

/-- Trace 2 for the round invariant: a started game whose players all
leave, after which a (disconnected) member continues to the next
round; the round creation fails after the increment was saved. -/
def c7trace2 : GameState :=
  runOps (initState 1 "h" 8 5)
    [Op.join 2 "b" 1, Op.join 3 "c" 2, Op.startGame 1 true 0,
     Op.leave 1, Op.leave 2, Op.leave 3, Op.continueNext 1 true 0]

/-- Two identities, each with a single in-window win worth 3 points:
identical (score, wins) keys for the leaderboard sort. -/
def c8rows : List StatRow :=
  [⟨1, 5, Role.detective, GameResult.win, 3⟩,
   ⟨2, 5, Role.detective, GameResult.win, 3⟩]

/-- A room whose current round is in the answering phase, with a
disconnected member P1, and connected members P2 (already answered)
and P3 (not answered). -/
def stC9 : GameState :=
  { room := ⟨1, RoomStatus.inProgress, 8, 1, 5⟩
    users := [mkUser 1, mkUser 2, mkUser 3]
    players := [⟨1, 1, "P1", 0, false, 0⟩, mkPlayer 2 2 "P2" true, mkPlayer 3 3 "P3" true]
    rounds := [⟨0, 1, 2, RoundPhase.answering, none, none, none⟩]
    answers := [⟨0, 2, 4⟩]
    votes := [], stats := []
    nextPid := 4, nextRoundId := 1 }

/-- A room mid-game whose current round sits in the discussion phase. -/
def stC10 : GameState :=
  { room := ⟨1, RoomStatus.inProgress, 8, 1, 5⟩
    users := [mkUser 1, mkUser 2, mkUser 3]
    players := [mkPlayer 1 1 "P1" true, mkPlayer 2 2 "P2" true, mkPlayer 3 3 "P3" true]
    rounds := [⟨0, 1, 2, RoundPhase.discussion, some 1, none, none⟩]
    answers := [], votes := [], stats := []
    nextPid := 4, nextRoundId := 1 }

/-- The spec wording of canStart, for comparison with the code:
connected-player count at least 3 and status waiting. -/
def canStartSpec (st : GameState) : Bool :=
  connectedCount st ≥ 3 && st.room.status == RoomStatus.waiting

/-- Number of votes received by accused id j. -/
def countVotesFor (votes : List Vote) (j : Nat) : Nat :=
  (votes.filter (fun v => v.accusedPid == j)).length

/-! ### Theorems -/

theorem maxCount_cons (p : Nat × Nat) (l : List (Nat × Nat)) :
    maxCount (p :: l) = Nat.max p.2 (maxCount l) := rfl

theorem maxByCountGo_le (l : List (Nat × Nat)) :
    ∀ bk bc, maxCount l ≤ bc → maxByCountGo bk bc l = bk := by
  induction l with
  | nil => intro bk bc _; rfl
  | cons p rest ih =>
    intro bk bc h
    rw [maxCount_cons] at h
    obtain ⟨k, c⟩ := p
    simp only [maxByCountGo]
    rw [if_neg (by simp at h; omega)]
    exact ih bk bc (by simp at h; omega)

theorem maxByCountGo_max (l : List (Nat × Nat)) :
    ∀ bk bc, bc < maxCount l →
      (l.find? (fun p => decide (maxCount l ≤ p.2))).map Prod.fst =
        some (maxByCountGo bk bc l) := by
  induction l with
  | nil => intro bk bc h; simp [maxCount] at h
  | cons p rest ih =>
    intro bk bc h
    obtain ⟨k, c⟩ := p
    by_cases hm : maxCount rest ≤ c
    · have hmax : maxCount ((k, c) :: rest) = c := by
        rw [maxCount_cons]; simp; omega
      rw [hmax] at h ⊢
      rw [List.find?_cons_of_pos _ (by simp)]
      simp only [maxByCountGo]
      rw [if_pos h, maxByCountGo_le rest k c hm]
      simp
    · push_neg at hm
      have hmax : maxCount ((k, c) :: rest) = maxCount rest := by
        rw [maxCount_cons]; simp; omega
      rw [hmax] at h ⊢
      rw [List.find?_cons_of_neg _ (by simp; omega)]
      simp only [maxByCountGo]
      by_cases hbc : bc < c
      · rw [if_pos hbc]; exact ih k c hm
      · rw [if_neg hbc]; exact ih bk bc h

theorem max_by_count_eq_first_max (t : List (Nat × Nat)) :
    max_by_count t =
      (t.find? (fun p => decide (maxCount t ≤ p.2))).map Prod.fst := by
  cases t with
  | nil => rfl
  | cons p rest =>
    obtain ⟨k, c⟩ := p
    by_cases hm : maxCount rest ≤ c
    · have hmax : maxCount ((k, c) :: rest) = c := by
        rw [maxCount_cons]; simp; omega
      rw [hmax, List.find?_cons_of_pos _ (by simp)]
      simp only [max_by_count]
      rw [maxByCountGo_le rest k c hm]
      simp
    · push_neg at hm
      have hmax : maxCount ((k, c) :: rest) = maxCount rest := by
        rw [maxCount_cons]; simp; omega
      rw [hmax, List.find?_cons_of_neg _ (by simp; omega)]
      simp only [max_by_count]
      exact (maxByCountGo_max rest k c hm).symm

theorem countVotesFor_cons (v : Vote) (vs : List Vote) (j : Nat) :
    countVotesFor (v :: vs) j =
      (if v.accusedPid = j then 1 else 0) + countVotesFor vs j := by
  simp only [countVotesFor, List.filter_cons]
  by_cases hv : v.accusedPid = j
  · simp [hv, Nat.add_comm]
  · simp [hv]

theorem bumpTally_find (k j : Nat) (acc : List (Nat × Nat)) :
    (bumpTally k acc).find? (fun p => p.1 == j) =
      if k = j then
        match acc.find? (fun p => p.1 == j) with
        | some p => some (j, p.2 + 1)
        | none => some (j, 1)
      else acc.find? (fun p => p.1 == j) := by
  induction acc with
  | nil =>
    by_cases hkj : k = j
    · subst hkj; simp [bumpTally]
    · simp [bumpTally, hkj, List.find?, beq_eq_false_iff_ne.mpr hkj]
  | cons p rest ih =>
    obtain ⟨k', c⟩ := p
    simp only [bumpTally]
    by_cases hkk : k = k'
    · subst hkk
      by_cases hkj : k = j
      · subst hkj
        simp [List.find?_cons_of_pos]
      · rw [if_pos rfl]
        rw [List.find?_cons_of_neg _ (by simp [hkj])]
        rw [List.find?_cons_of_neg _ (by simp [hkj])]
        rw [if_neg hkj]
    · rw [if_neg hkk]
      by_cases hkj' : k' = j
      · rw [List.find?_cons_of_pos _ (by simp [hkj'])]
        rw [List.find?_cons_of_pos _ (by simp [hkj'])]
        rw [if_neg (fun h => hkk (h.trans hkj'.symm))]
      · rw [List.find?_cons_of_neg _ (by simp [hkj'])]
        rw [List.find?_cons_of_neg _ (by simp [hkj'])]
        exact ih

theorem tallyAux_find (vs : List Vote) : ∀ (acc : List (Nat × Nat)) (j : Nat),
    (tallyAux acc vs).find? (fun p => p.1 == j) =
      match acc.find? (fun p => p.1 == j) with
      | some p => some (j, p.2 + countVotesFor vs j)
      | none =>
          if countVotesFor vs j = 0 then none
          else some (j, countVotesFor vs j) := by
  induction vs with
  | nil =>
    intro acc j
    simp only [tallyAux, countVotesFor, List.filter_nil, List.length_nil]
    cases h : acc.find? (fun p => p.1 == j) with
    | none => simp
    | some p =>
      have hpj : p.1 = j := by
        have hp := List.find?_some h
        simpa using hp
      simp [← hpj]
  | cons v rest ih =>
    intro acc j
    simp only [tallyAux]
    rw [ih, bumpTally_find, countVotesFor_cons]
    by_cases hv : v.accusedPid = j
    · rw [if_pos hv, if_pos hv]
      cases h : acc.find? (fun p => p.1 == j) with
      | none => simp [Nat.add_comm]
      | some p => simp [Nat.add_assoc, Nat.add_comm, Nat.add_left_comm]
    · rw [if_neg hv, if_neg hv]
      simp

theorem bumpTally_keys (k : Nat) (acc : List (Nat × Nat)) :
    (bumpTally k acc).map Prod.fst =
      if k ∈ acc.map Prod.fst then acc.map Prod.fst
      else acc.map Prod.fst ++ [k] := by
  induction acc with
  | nil => simp [bumpTally]
  | cons p rest ih =>
    obtain ⟨k', c⟩ := p
    simp only [bumpTally, List.map_cons]
    by_cases hkk : k = k'
    · subst hkk; simp
    · rw [if_neg hkk]
      simp only [List.map_cons, ih]
      by_cases hmem : k ∈ rest.map Prod.fst
      · simp [hmem, hkk]
      · simp [hmem, hkk]

theorem tallyAux_keys (vs : List Vote) : ∀ (acc : List (Nat × Nat)),
    (tallyAux acc vs).map Prod.fst =
      acc.map Prod.fst ++
        (firstOccurrences (vs.map (fun v => v.accusedPid))).filter
          (fun j => decide (j ∉ acc.map Prod.fst)) := by
  induction vs with
  | nil => intro acc; simp [tallyAux, firstOccurrences]
  | cons v rest ih =>
    intro acc
    simp only [tallyAux, List.map_cons, firstOccurrences]
    rw [ih, bumpTally_keys]
    by_cases hmem : v.accusedPid ∈ acc.map Prod.fst
    · rw [if_pos hmem]
      congr 1
      rw [List.filter_cons, if_neg (by simp [hmem]), List.filter_filter]
      apply List.filter_congr
      intro j _
      by_cases hj : j ∈ acc.map Prod.fst
      · simp [hj]
      · simp [hj]
        exact fun h => hj (h ▸ hmem)
    · rw [if_neg hmem]
      rw [List.filter_cons, if_pos (by simp [hmem]), List.append_assoc]
      congr 1
      simp only [List.singleton_append]
      congr 1
      rw [List.filter_filter]
      apply List.filter_congr
      intro j _
      by_cases hj : j ∈ acc.map Prod.fst
      · simp [hj]
      · by_cases hja : j = v.accusedPid
        · simp [hja]
        · simp [hj, hja]

/-- C2: vote tabulation.  The most voted player is the first entry of
the accumulated tally reaching the maximal count (so ties go to the
accused id inserted first into the tally map); tally lookups agree
with the per-accused vote counts; the tally keys are in first
occurrence order of the votes; the imposter is caught exactly when
the winner equals the round's imposter; and with zero votes there is
no winner and the imposter is not caught. -/
theorem vote_tabulation_spec (st : GameState) (r : GameRound) :
    (mostVotedOf st r =
      ((roundTally st r).find?
        (fun p => decide (maxCount (roundTally st r) ≤ p.2))).map Prod.fst) ∧
    (∀ j, (roundTally st r).find? (fun p => p.1 == j) =
      (if countVotesFor (roundVotes st r.roundId) j = 0 then none
       else some (j, countVotesFor (roundVotes st r.roundId) j))) ∧
    ((roundTally st r).map Prod.fst =
      firstOccurrences ((roundVotes st r.roundId).map (fun v => v.accusedPid))) ∧
    (imposterCaughtOf st r = true ↔ mostVotedOf st r = some r.imposterPid) ∧
    (roundVotes st r.roundId = [] →
      mostVotedOf st r = none ∧ imposterCaughtOf st r = false) := by
  refine ⟨?_, ?_, ?_, ?_, ?_⟩
  · exact max_by_count_eq_first_max (roundTally st r)
  · intro j
    have h := tallyAux_find (roundVotes st r.roundId) [] j
    simpa [roundTally, tallyVotes] using h
  · have h := tallyAux_keys (roundVotes st r.roundId) []
    simpa [roundTally, tallyVotes] using h
  · simp only [imposterCaughtOf]
    cases h : mostVotedOf st r with
    | none => simp
    | some mv => simp [beq_iff_eq]
  · intro h
    have hmv : mostVotedOf st r = none := by
      simp [mostVotedOf, roundTally, h, tallyVotes, tallyAux, max_by_count]
    exact ⟨hmv, by simp [imposterCaughtOf, hmv]⟩

/-- Witness for C2: the empty-vote case on a concrete round, and a
tally lookup in scenario B. -/
theorem vote_tabulation_spec_witness :
    (mostVotedOf stC6 ⟨0, 1, 2, RoundPhase.voting, none, none, none⟩ = none ∧
     imposterCaughtOf stC6 ⟨0, 1, 2, RoundPhase.voting, none, none, none⟩ = false) ∧
    (roundTally stB rB).find? (fun p => p.1 == 1) = some (1, 2) :=
  ⟨(vote_tabulation_spec stC6 ⟨0, 1, 2, RoundPhase.voting, none, none, none⟩).2.2.2.2
      (by decide),
   by rw [(vote_tabulation_spec stB rB).2.1 1]; decide⟩

/-- C3 counterexample: in a waiting room with three player rows of
which only two are connected, can_start returns true although the
connected-player count is 2; so can_start is not equivalent to the
claimed connected-count criterion. -/
theorem can_start_counts_disconnected_counterexample :
    can_start stC3 = true ∧ connectedCount stC3 = 2 ∧
    stC3.room.status = RoomStatus.waiting ∧
    ¬ (can_start stC3 = true ↔
        (3 ≤ connectedCount stC3 ∧ stC3.room.status = RoomStatus.waiting)) := by
  decide

/-- C3 (amended): can_start returns true iff the count of ALL player
rows of the room (connected or not) is at least 3 and the status is
waiting; the embedded spec reading with connected count differs. -/
theorem can_start_amended (st : GameState) :
    can_start st = true ↔
      (3 ≤ player_count st ∧ st.room.status = RoomStatus.waiting) := by
  simp [can_start, Bool.and_eq_true, decide_eq_true_eq, beq_iff_eq]

/-- Witness for the amended C3 statement at a concrete room. -/
theorem can_start_amended_witness :
    can_start stC3 = true ↔
      (3 ≤ player_count stC3 ∧ stC3.room.status = RoomStatus.waiting) :=
  can_start_amended stC3

/-- C5: evaluating join_room at the failing input.  User 2 already
has a player row in the waiting room, disconnected and nicknamed old;
joining again with nickname new reports a reconnection, keeps exactly
one row for the pair, but the durable row is still disconnected and
still nicknamed old, with only the activity timestamp refreshed to
the current time (7), because the save call lists only last_active. -/
theorem join_room_reconnect_not_persisted :
    (join_room stC5 2 "new" 7).1 = JoinResult.reconnected ∧
    (join_room stC5 2 "new" 7).2.players.filter (fun p => p.userId == 2) =
      [{ pid := 1, userId := 2, nickname := "old", score := 0,
         is_connected := false, last_active := 7 }] := by
  decide

/-- C6 counterexample: a self-vote in the voting phase is rejected,
but the store has been mutated: the voter's activity timestamp was
refreshed before the self-vote check ran. -/
theorem submit_vote_self_mutates_counterexample :
    (submit_vote stC6 1 1 5).1 = SubmitVoteResult.selfVote ∧
    (submit_vote stC6 1 1 5).2 ≠ stC6 ∧
    (submit_vote stC6 1 1 5).2 = touchActivity stC6 1 5 := by
  decide

/-- C7 counterexample: trace 1 starts a room created with
total_rounds 0, reaching current_round 1 greater than total_rounds;
trace 2 continues a round with nobody connected, leaving
current_round 2 while the rounds present are numbered only 1. -/
theorem round_invariant_counterexample :
    ¬ (c7trace1.room.current_round ≤ c7trace1.room.total_rounds) ∧
    roundNumbers c7trace2 ≠
      (List.range c7trace2.room.current_round).map (fun n => n + 1) := by
  decide

/-- C8 counterexample: two identities with equal in-window score and
wins receive the distinct ranks 1 and 2 from the aggregation pass,
not the same dense rank. -/
theorem leaderboard_rank_counterexample :
    (updateLeaderboardPeriod [1, 2] c8rows 0 10).map
        (fun x => (x.total_score, x.total_wins, x.rank)) =
      [(3, 1, 1), (3, 1, 2)] := by
  decide

/-- C1 counterexample: scenario B.  Player 1 is a connected detective
who voted for player 3; the imposter (player 2) was not caught and
the vote did not accuse the imposter.  The outcome record gives 1
point and counts the correct vote, but records result loss, not win:
the one-point branch of end_round never sets result to win. -/
theorem detective_point_result_counterexample :
    (List.find? (fun p => p.pid == 1) stB.players) =
      some (mkPlayer 1 1 "P1" true) ∧
    voteOf stB rB (mkPlayer 1 1 "P1" true) = some ⟨0, 1, 3⟩ ∧
    imposterCaughtOf stB rB = false ∧
    rB.imposterPid = 2 ∧
    ((end_round stB rB 9).2.stats.find? (fun s => s.playerPid == 1)) =
      some { playerPid := 1, round_number := 1, role := Role.detective,
             result := GameResult.loss, points_earned := 1,
             was_voted_out := true, correct_votes := 1 } ∧
    GameResult.loss ≠ GameResult.win := by
  decide

/-- C1 (amended): in the scoring pass, every connected detective who
cast a vote earns exactly 1 point and is counted as a correct vote
when the imposter was not caught and the vote did not accuse the
imposter — but the outcome record carries result loss, because the
one-point branch of end_round leaves the result variable at its
initial loss value. -/
theorem detective_uncaught_wrong_vote_scores (st : GameState) (r : GameRound)
    (now : Nat) (p : Player) (v : Vote)
    (hp : p ∈ st.players) (hc : p.is_connected = true)
    (hd : p.pid ≠ r.imposterPid)
    (hv : voteOf st r p = some v)
    (hcaught : imposterCaughtOf st r = false)
    (hacc : v.accusedPid ≠ r.imposterPid) :
    statFor st r p =
      { playerPid := p.pid, round_number := r.round_number,
        role := Role.detective, result := GameResult.loss,
        points_earned := 1,
        was_voted_out := mostVotedOf st r == some p.pid,
        correct_votes := 1 } ∧
    statFor st r p ∈ (end_round st r now).2.stats := by
  constructor
  · simp [statFor, scoreOf, scoreBranch, hv, hcaught,
      beq_eq_false_iff_ne.mpr hd, bne_iff_ne, hacc]
  · have hmem : p ∈ st.players.filter (fun q => q.is_connected) :=
      List.mem_filter.mpr ⟨hp, by simp [hc]⟩
    simp only [end_round]
    exact List.mem_append_right _ (List.mem_map_of_mem _ hmem)

/-- Witness for the amended C1 statement: player 1 in scenario B. -/
theorem detective_uncaught_wrong_vote_scores_witness :
    statFor stB rB (mkPlayer 1 1 "P1" true) =
      { playerPid := 1, round_number := 1, role := Role.detective,
        result := GameResult.loss, points_earned := 1,
        was_voted_out := mostVotedOf stB rB == some 1, correct_votes := 1 } ∧
    statFor stB rB (mkPlayer 1 1 "P1" true) ∈ (end_round stB rB 9).2.stats :=
  detective_uncaught_wrong_vote_scores stB rB 9 (mkPlayer 1 1 "P1" true)
    ⟨0, 1, 3⟩ (by decide) (by decide) (by decide) (by decide) (by decide)
    (by decide)

theorem filter_map_eq {α : Type} (f : α → α) (p : α → Bool) (l : List α)
    (h : ∀ x, p (f x) = p x) :
    (l.map f).filter p = (l.filter p).map f := by
  induction l with
  | nil => rfl
  | cons x xs ih =>
    simp only [List.map_cons, List.filter_cons, h x]
    cases hx : p x <;> simp [hx, ih]

theorem upsertAnswer_filter (answers : List PlayerAnswer) (rid pid : Nat) (v : Int)
    (hwf : (answers.filter
      (fun a => a.roundId == rid && a.playerPid == pid)).length ≤ 1) :
    (upsertAnswer answers rid pid v).filter
        (fun a => a.roundId == rid && a.playerPid == pid) =
      [{ roundId := rid, playerPid := pid, answer := v }] := by
  cases h : answers.any (fun a => a.roundId == rid && a.playerPid == pid) with
  | false =>
    simp only [upsertAnswer, h, Bool.false_eq_true, if_false]
    rw [List.filter_append]
    have hnil : answers.filter (fun a => a.roundId == rid && a.playerPid == pid) = [] := by
      rw [List.filter_eq_nil_iff]
      intro a ha
      have := List.any_eq_false.mp h a ha
      simpa using this
    rw [hnil]
    simp
  | true =>
    simp only [upsertAnswer, h, if_true]
    rw [filter_map_eq]
    · have hlen1 : (answers.filter
          (fun a => a.roundId == rid && a.playerPid == pid)).length = 1 := by
        have hpos : 0 < (answers.filter
            (fun a => a.roundId == rid && a.playerPid == pid)).length := by
          obtain ⟨a, ha, hka⟩ := List.any_eq_true.mp h
          exact List.length_pos.mpr
            (List.ne_nil_of_mem (List.mem_filter.mpr ⟨ha, hka⟩))
        omega
      obtain ⟨a0, ha0⟩ := List.length_eq_one.mp hlen1
      rw [ha0]
      have hmem : a0 ∈ answers.filter
          (fun a => a.roundId == rid && a.playerPid == pid) := by
        rw [ha0]; exact List.mem_singleton_self a0
      have hkey := (List.mem_filter.mp hmem).2
      have h1 : a0.roundId = rid := by
        have := hkey
        simp [Bool.and_eq_true, beq_iff_eq] at this
        exact this.1
      have h2 : a0.playerPid = pid := by
        have := hkey
        simp [Bool.and_eq_true, beq_iff_eq] at this
        exact this.2
      simp only [List.map_cons, List.map_nil, hkey, if_true]
      cases a0
      simp_all
    · intro a
      cases hk : (a.roundId == rid && a.playerPid == pid) <;> simp [hk]

theorem connectedCount_update_answers (s : GameState) (a : List PlayerAnswer) :
    connectedCount ({ room := s.room, users := s.users, players := s.players,
                      rounds := s.rounds, answers := a, votes := s.votes,
                      stats := s.stats, nextPid := s.nextPid,
                      nextRoundId := s.nextRoundId }) = connectedCount s := rfl

theorem connectedCount_touch (st : GameState) (pid now : Nat) :
    connectedCount (touchActivity st pid now) = connectedCount st := by
  simp only [connectedCount, touchActivity]
  rw [filter_map_eq]
  · rw [List.length_map]
  · intro q
    by_cases hq : q.pid == pid <;> simp [hq]

/-- C4: submit_answer succeeds only while the current round is in the
answering phase (any other phase is rejected with the store
untouched); on success the (round, player) answer is upserted so that
exactly one row remains for the pair, holding the submitted value;
and immediately after the upsert the round moves to discussion with
the discussion-start time stamped iff the round's answer count has
reached the connected-player count, the rounds being otherwise
unchanged. -/
theorem submit_answer_spec (st : GameState) (uid : Nat) (value : Int) (now : Nat)
    (r : GameRound) (p : Player)
    (hr : currentRound st = some r)
    (hwf : (st.answers.filter
        (fun a => a.roundId == r.roundId && a.playerPid == p.pid)).length ≤ 1) :
    (r.status ≠ RoundPhase.answering →
      submit_answer st uid value now = (SubmitAnswerResult.wrongPhase, st)) ∧
    (r.status = RoundPhase.answering → findPlayerByUid st uid = some p →
      (submit_answer st uid value now).1 = SubmitAnswerResult.accepted ∧
      ((submit_answer st uid value now).2.answers.filter
          (fun a => a.roundId == r.roundId && a.playerPid == p.pid)) =
        [{ roundId := r.roundId, playerPid := p.pid, answer := value }] ∧
      (((upsertAnswer st.answers r.roundId p.pid value).filter
            (fun a => a.roundId == r.roundId)).length < connectedCount st →
        (submit_answer st uid value now).2.rounds = st.rounds) ∧
      (connectedCount st ≤
          ((upsertAnswer st.answers r.roundId p.pid value).filter
            (fun a => a.roundId == r.roundId)).length →
        (submit_answer st uid value now).2.rounds =
          st.rounds.map (fun r' =>
            if r'.roundId == r.roundId then
              { r' with status := RoundPhase.discussion,
                        discussion_started_at := some now }
            else r'))) := by
  constructor
  · intro hst
    simp only [submit_answer, hr]
    rw [if_pos (by simp [bne_iff_ne, hst])]
  · intro hst hp
    have htouch : (touchActivity st p.pid now).answers = st.answers := rfl
    simp only [submit_answer, hr]
    rw [if_neg (by simp [bne_iff_ne, hst])]
    simp only [hp]
    simp only [roundAnswers, htouch]
    rw [connectedCount_update_answers, connectedCount_touch]
    refine ⟨?_, ?_, ?_, ?_⟩
    · split <;> rfl
    · have hfilt := upsertAnswer_filter st.answers r.roundId p.pid value hwf
      split <;> simpa [htouch] using hfilt
    · intro hlt
      rw [if_neg (by omega)]
      rfl
    · intro hge
      rw [if_pos (by omega)]
      rfl

/-- Witness for C4 at a concrete state: the disconnected member of
stC9 submits an answer into the answering-phase round. -/
theorem submit_answer_spec_witness :
    ((submit_answer stC9 1 7 3).1 = SubmitAnswerResult.accepted ∧
      ((submit_answer stC9 1 7 3).2.answers.filter
          (fun a => a.roundId == 0 && a.playerPid == 1)) =
        [{ roundId := 0, playerPid := 1, answer := 7 }] ∧
      (((upsertAnswer stC9.answers 0 1 7).filter
            (fun a => a.roundId == 0)).length < connectedCount stC9 →
        (submit_answer stC9 1 7 3).2.rounds = stC9.rounds) ∧
      (connectedCount stC9 ≤
          ((upsertAnswer stC9.answers 0 1 7).filter
            (fun a => a.roundId == 0)).length →
        (submit_answer stC9 1 7 3).2.rounds =
          stC9.rounds.map (fun r' =>
            if r'.roundId == 0 then
              { r' with status := RoundPhase.discussion,
                        discussion_started_at := some 3 }
            else r'))) :=
  (submit_answer_spec stC9 1 7 3 ⟨0, 1, 2, RoundPhase.answering, none, none, none⟩
    ⟨1, 1, "P1", 0, false, 0⟩ (by decide) (by decide)).2 (by decide) (by decide)

theorem findPlayerByPid_touch (st : GameState) (pid now k : Nat) :
    findPlayerByPid (touchActivity st pid now) k =
      (findPlayerByPid st k).map
        (fun p => if p.pid == pid then { p with last_active := now } else p) := by
  simp only [findPlayerByPid, touchActivity]
  induction st.players with
  | nil => rfl
  | cons q qs ih =>
    have hpid : (if (q.pid == pid) = true
        then { q with last_active := now } else q).pid = q.pid := by
      split <;> rfl
    simp only [List.map_cons]
    cases hq : q.pid == k with
    | true =>
      rw [List.find?_cons_of_pos _ (by rw [hpid]; exact hq),
        List.find?_cons_of_pos (p := fun x : Player => x.pid == k) _ hq]
      simp
    | false =>
      rw [List.find?_cons_of_neg _ (by rw [hpid]; simp [hq]),
        List.find?_cons_of_neg (p := fun x : Player => x.pid == k) _ (by simp [hq])]
      exact ih

/-- C6 (amended): submit_vote rejects a wrong-phase submission with
the store completely untouched; it rejects a vote whose accused is
not a player of the room, and a self-vote, reporting each
synchronously, and in those two cases no Vote is created or modified
and the only mutation is the voter's activity timestamp, which was
already refreshed by the voter lookup preceding the checks. -/
theorem submit_vote_rejection_spec (st : GameState) (uid accusedPid now : Nat)
    (r : GameRound) (hr : currentRound st = some r) :
    (r.status ≠ RoundPhase.voting →
      submit_vote st uid accusedPid now = (SubmitVoteResult.wrongPhase, st)) ∧
    (∀ voter, r.status = RoundPhase.voting → findPlayerByUid st uid = some voter →
      (touchActivity st voter.pid now).votes = st.votes ∧
      (findPlayerByPid st accusedPid = none →
        submit_vote st uid accusedPid now =
          (SubmitVoteResult.accusedNotFound, touchActivity st voter.pid now)) ∧
      (∀ accused, findPlayerByPid st accusedPid = some accused →
        accused.pid = voter.pid →
        submit_vote st uid accusedPid now =
          (SubmitVoteResult.selfVote, touchActivity st voter.pid now))) := by
  constructor
  · intro hst
    simp only [submit_vote, hr]
    rw [if_pos (by simp [bne_iff_ne, hst])]
  · intro voter hst hp
    refine ⟨rfl, ?_, ?_⟩
    · intro hacc
      simp only [submit_vote, hr]
      rw [if_neg (by simp [bne_iff_ne, hst])]
      simp only [hp, findPlayerByPid_touch, hacc, Option.map_none']
    · intro accused hacc hself
      simp only [submit_vote, hr]
      rw [if_neg (by simp [bne_iff_ne, hst])]
      simp only [hp, findPlayerByPid_touch, hacc, Option.map_some']
      have hpid : (if (accused.pid == voter.pid) = true
          then { accused with last_active := now } else accused).pid = accused.pid := by
        split <;> rfl
      rw [if_pos (by rw [hpid]; simp [hself])]

/-- Witness for the amended C6 statement: the concrete self-vote. -/
theorem submit_vote_rejection_spec_witness :
    submit_vote stC6 1 1 5 = (SubmitVoteResult.selfVote, touchActivity stC6 1 5) :=
  (((submit_vote_rejection_spec stC6 1 1 5
      ⟨0, 1, 2, RoundPhase.voting, none, none, none⟩ (by decide)).2
    (mkPlayer 1 1 "P1" true) (by decide) (by decide)).2.2
    (mkPlayer 1 1 "P1" true) (by decide) (by decide))

/-- C9: submission checks only membership and phase, never the
connection flag.  Any member p (in particular a disconnected one) has
an answer accepted while the round is answering, and the quorum check
compares the full answer count of the round against the
connected-player count, so the round advances to discussion as soon
as that comparison holds — even in the presence of a connected player
q who has not answered (hypotheses on q).  Likewise any member, in
particular a disconnected one, has a vote accepted during the voting
phase. -/
theorem submission_ignores_connection (st : GameState) (uid : Nat) (value : Int)
    (now : Nat) (r : GameRound) (p q : Player)
    (hr : currentRound st = some r) (hst : r.status = RoundPhase.answering)
    (hp : findPlayerByUid st uid = some p) (_hpc : p.is_connected = false)
    (_hq : q ∈ st.players) (_hqc : q.is_connected = true)
    (_hqa : ∀ a ∈ st.answers, a.roundId = r.roundId → a.playerPid ≠ q.pid) :
    (submit_answer st uid value now).1 = SubmitAnswerResult.accepted ∧
    (connectedCount st ≤
        ((upsertAnswer st.answers r.roundId p.pid value).filter
          (fun a => a.roundId == r.roundId)).length →
      { r with status := RoundPhase.discussion, discussion_started_at := some now }
        ∈ (submit_answer st uid value now).2.rounds) ∧
    (∀ (st' : GameState) (uid' accusedPid' now' : Nat) (r' : GameRound)
        (p' acc' : Player),
      currentRound st' = some r' → r'.status = RoundPhase.voting →
      findPlayerByUid st' uid' = some p' → p'.is_connected = false →
      findPlayerByPid st' accusedPid' = some acc' → acc'.pid ≠ p'.pid →
      ∃ b, (submit_vote st' uid' accusedPid' now').1 = SubmitVoteResult.accepted b) := by
  have hmem : r ∈ st.rounds := List.mem_of_find?_eq_some hr
  refine ⟨?_, ?_, ?_⟩
  · simp only [submit_answer, hr]
    rw [if_neg (by simp [bne_iff_ne, hst])]
    simp only [hp]
    split <;> rfl
  · intro hge
    simp only [submit_answer, hr]
    rw [if_neg (by simp [bne_iff_ne, hst])]
    simp only [hp]
    simp only [roundAnswers]
    rw [connectedCount_update_answers, connectedCount_touch]
    rw [if_pos (by exact hge)]
    have heq : ({ r with
        status := RoundPhase.discussion,
        discussion_started_at := some now } : GameRound) =
        (fun r' => if r'.roundId == r.roundId then
          { r' with
            status := RoundPhase.discussion,
            discussion_started_at := some now }
         else r') r := by simp
    rw [heq]
    exact List.mem_map_of_mem _ hmem
  · intro st' uid' accusedPid' now' r' p' acc' hr' hst' hp' _ hacc' hne
    simp only [submit_vote, hr']
    rw [if_neg (by simp [bne_iff_ne, hst'])]
    simp only [hp', findPlayerByPid_touch, hacc', Option.map_some']
    have hacc_eq : (if (acc'.pid == p'.pid) = true
        then { acc' with last_active := now' } else acc') = acc' :=
      if_neg (by simp [hne])
    rw [hacc_eq]
    rw [if_neg (by simp only [beq_iff_eq]; exact fun h => hne h.symm)]
    split
    · exact ⟨_, rfl⟩
    · exact ⟨_, rfl⟩

/-- Witness for C9: in stC9 the disconnected member P1 submits the
last missing answer relative to the connected count and the round
advances to discussion although connected P3 never answered; and a
disconnected voter's vote is accepted in a voting-phase round. -/
theorem submission_ignores_connection_witness :
    (submit_answer stC9 1 7 3).1 = SubmitAnswerResult.accepted ∧
    (connectedCount stC9 ≤
        ((upsertAnswer stC9.answers 0 1 7).filter
          (fun a => a.roundId == 0)).length →
      ({ roundId := 0, round_number := 1, imposterPid := 2,
         status := RoundPhase.discussion, discussion_started_at := some 3,
         voting_started_at := none, finished_at := none } : GameRound)
        ∈ (submit_answer stC9 1 7 3).2.rounds) ∧
    (∀ (st' : GameState) (uid' accusedPid' now' : Nat) (r' : GameRound)
        (p' acc' : Player),
      currentRound st' = some r' → r'.status = RoundPhase.voting →
      findPlayerByUid st' uid' = some p' → p'.is_connected = false →
      findPlayerByPid st' accusedPid' = some acc' → acc'.pid ≠ p'.pid →
      ∃ b, (submit_vote st' uid' accusedPid' now').1 = SubmitVoteResult.accepted b) :=
  submission_ignores_connection stC9 1 7 3
    ⟨0, 1, 2, RoundPhase.answering, none, none, none⟩
    ⟨1, 1, "P1", 0, false, 0⟩ (mkPlayer 3 3 "P3" true)
    (by decide) (by decide) (by decide) (by decide) (by decide) (by decide)
    (by decide)

theorem start_round_success (st : GameState) (n : Nat) (pick : Nat)
    (hnew : st.rounds.any (fun r => r.round_number == n) = false)
    (hconn : 1 ≤ connectedCount st) :
    ∃ imp : Player,
      start_round st n true pick =
        some ({ st with
          rounds := st.rounds ++
            [{ roundId := st.nextRoundId, round_number := n,
               imposterPid := imp.pid, status := RoundPhase.answering,
               discussion_started_at := none, voting_started_at := none,
               finished_at := none }]
          nextRoundId := st.nextRoundId + 1 }) := by
  simp only [start_round, Bool.not_true, Bool.false_eq_true, if_false, hnew]
  cases hfil : st.players.filter (fun p => p.is_connected) with
  | nil => exact absurd hconn (by simp [connectedCount, hfil])
  | cons c cs =>
    exact ⟨(c :: cs).getD (pick % (c :: cs).length) c, rfl⟩

/-- C10: continue_to_next_round imposes no precondition on the
current round's phase.  For any member of an in-progress room: when
current_round < total_rounds (and the next round can be created), the
call increments current_round and appends a fresh answering-phase
round numbered current_round + 1, leaving every existing round — in
whatever phase it is — and the outcome ledger untouched (the current
round is abandoned unscored); when current_round ≥ total_rounds, the
call ends the game regardless of the current round's phase, again
leaving rounds and ledger untouched. -/
theorem continue_no_phase_precondition (st : GameState) (uid pick : Nat)
    (p : Player) (hp : findPlayerByUid st uid = some p)
    (_hst : st.room.status = RoomStatus.inProgress) :
    (st.room.current_round < st.room.total_rounds →
      (st.rounds.any
        (fun r => r.round_number == st.room.current_round + 1)) = false →
      1 ≤ connectedCount st →
      (continue_to_next_round st uid true pick).1 =
        ContinueResult.nextRound (st.room.current_round + 1) ∧
      (continue_to_next_round st uid true pick).2.room.current_round =
        st.room.current_round + 1 ∧
      (∃ nr : GameRound,
        (continue_to_next_round st uid true pick).2.rounds = st.rounds ++ [nr] ∧
        nr.round_number = st.room.current_round + 1 ∧
        nr.status = RoundPhase.answering) ∧
      (continue_to_next_round st uid true pick).2.stats = st.stats) ∧
    (st.room.total_rounds ≤ st.room.current_round →
      (continue_to_next_round st uid true pick).1 = ContinueResult.gameEnded ∧
      (continue_to_next_round st uid true pick).2.room.status =
        RoomStatus.finished ∧
      (continue_to_next_round st uid true pick).2.rounds = st.rounds ∧
      (continue_to_next_round st uid true pick).2.stats = st.stats) := by
  constructor
  · intro hlt hnew hconn
    simp only [continue_to_next_round, hp]
    rw [if_neg (by omega)]
    obtain ⟨imp, hsr⟩ := start_round_success
      ({ st with room := { st.room with
           current_round := st.room.current_round + 1 } })
      (st.room.current_round + 1) pick (by simpa using hnew)
      (by simpa [connectedCount] using hconn)
    simp only [hsr]
    refine ⟨trivial, trivial, ?_, trivial⟩
    exact ⟨_, rfl, rfl, rfl⟩
  · intro hge
    simp only [continue_to_next_round, hp]
    rw [if_pos (by omega)]
    exact ⟨rfl, rfl, rfl, rfl⟩

/-- Witness for C10: continuing from a discussion-phase round in
stC10, and ending the game from the same state with the bound
reached. -/
theorem continue_no_phase_precondition_witness :
    ((continue_to_next_round stC10 1 true 0).1 = ContinueResult.nextRound 2 ∧
      (continue_to_next_round stC10 1 true 0).2.room.current_round = 2 ∧
      (∃ nr : GameRound,
        (continue_to_next_round stC10 1 true 0).2.rounds = stC10.rounds ++ [nr] ∧
        nr.round_number = 2 ∧
        nr.status = RoundPhase.answering) ∧
      (continue_to_next_round stC10 1 true 0).2.stats = stC10.stats) :=
  (continue_no_phase_precondition stC10 1 0 (mkPlayer 1 1 "P1" true)
    (by decide) (by decide)).1 (by decide) (by decide) (by decide)

theorem map_num_eq (l : List GameRound) (f : GameRound → GameRound)
    (h : ∀ r, (f r).round_number = r.round_number) :
    (l.map f).map (fun r => r.round_number) = l.map (fun r => r.round_number) := by
  induction l with
  | nil => rfl
  | cons x xs ih => simp [h x, ih]

theorem RoundInv_frame (st st' : GameState) (hroom : st'.room = st.room)
    (hnums : roundNumbers st' = roundNumbers st) (hInv : RoundInv st) :
    RoundInv st' := by
  unfold RoundInv at hInv ⊢
  rw [hroom, hnums]
  exact hInv

theorem join_room_frame (st : GameState) (u : Nat) (n : String) (t : Nat) :
    (join_room st u n t).2.room = st.room ∧
    (join_room st u n t).2.rounds = st.rounds := by
  unfold join_room
  repeat' split
  all_goals exact ⟨rfl, rfl⟩

theorem leave_room_frame (st : GameState) (u : Nat) :
    (leave_room st u).2.room = st.room ∧
    (leave_room st u).2.rounds = st.rounds := by
  unfold leave_room
  repeat' split
  all_goals exact ⟨rfl, rfl⟩

theorem end_round_frame (st : GameState) (r : GameRound) (t : Nat) :
    (end_round st r t).2.room = st.room ∧
    roundNumbers (end_round st r t).2 = roundNumbers st := by
  refine ⟨rfl, ?_⟩
  simp only [end_round, roundNumbers]
  exact map_num_eq _ _ (fun r' => by split <;> rfl)

theorem start_voting_frame (st : GameState) (u t : Nat) :
    (start_voting st u t).2.room = st.room ∧
    roundNumbers (start_voting st u t).2 = roundNumbers st := by
  unfold start_voting
  repeat' split
  all_goals first
    | exact ⟨rfl, rfl⟩
    | (refine ⟨rfl, ?_⟩
       simp only [roundNumbers]
       exact map_num_eq _ _ (fun r' => by split <;> rfl))

theorem submit_answer_frame (st : GameState) (u : Nat) (v : Int) (t : Nat) :
    (submit_answer st u v t).2.room = st.room ∧
    roundNumbers (submit_answer st u v t).2 = roundNumbers st := by
  unfold submit_answer
  repeat' split
  all_goals dsimp only
  all_goals repeat' split
  all_goals first
    | exact ⟨rfl, rfl⟩
    | (refine ⟨rfl, ?_⟩
       simp only [roundNumbers]
       exact map_num_eq _ _ (fun r' => by split <;> rfl))

set_option maxRecDepth 16384 in
theorem submit_vote_frame (st : GameState) (u a t : Nat) :
    (submit_vote st u a t).2.room = st.room ∧
    roundNumbers (submit_vote st u a t).2 = roundNumbers st := by
  unfold submit_vote
  repeat' split
  all_goals dsimp only
  all_goals repeat' split
  all_goals first
    | exact ⟨rfl, rfl⟩
    | exact ⟨(end_round_frame _ _ _).1, (end_round_frame _ _ _).2⟩

theorem any_num_eq_mem (l : List GameRound) (n : Nat) :
    (l.any (fun r => r.round_number == n)) = true ↔
      n ∈ l.map (fun r => r.round_number) := by
  rw [List.any_eq_true, List.mem_map]
  constructor
  · rintro ⟨r, hr, hb⟩
    exact ⟨r, hr, by simpa using hb⟩
  · rintro ⟨r, hr, hb⟩
    exact ⟨r, hr, by simpa using hb⟩

theorem start_round_some (st : GameState) (n : Nat) (qa : Bool) (pick : Nat)
    (st2 : GameState) (hm : start_round st n qa pick = some st2) :
    st2.room = st.room ∧
    roundNumbers st2 = roundNumbers st ++ [n] ∧
    (st.rounds.any (fun r => r.round_number == n)) = false := by
  unfold start_round at hm
  cases qa with
  | false => simp at hm
  | true =>
    simp only [Bool.not_true, Bool.false_eq_true, if_false] at hm
    cases hany : st.rounds.any (fun r => r.round_number == n) with
    | true => rw [hany] at hm; simp at hm
    | false =>
      rw [hany] at hm
      simp only [Bool.false_eq_true, if_false] at hm
      cases hfil : st.players.filter (fun p => p.is_connected) with
      | nil => rw [hfil] at hm; simp at hm
      | cons c cs =>
        rw [hfil] at hm
        have hst2 := Option.some.inj hm
        subst hst2
        exact ⟨rfl, by simp [roundNumbers], rfl⟩

theorem start_round_none (st : GameState) (n : Nat) (pick : Nat)
    (hnew : (st.rounds.any (fun r => r.round_number == n)) = false)
    (hconn : 1 ≤ connectedCount st) :
    start_round st n true pick ≠ none := by
  obtain ⟨imp, hsr⟩ := start_round_success st n pick hnew hconn
  simp [hsr]

theorem start_game_inv (st : GameState) (u : Nat) (qa : Bool) (pk : Nat)
    (hInv : RoundInv st) (htr : 1 ≤ st.room.total_rounds) :
    RoundInv (start_game st u qa pk).2 ∧
    (start_game st u qa pk).2.room.total_rounds = st.room.total_rounds := by
  unfold start_game
  split
  · exact ⟨hInv, rfl⟩
  · split
    · exact ⟨hInv, rfl⟩
    · try dsimp only
      split
      · rename_i st2 hm
        obtain ⟨hroom, hnums, hany⟩ := start_round_some _ 1 qa pk st2 hm
        try dsimp only at hroom
        simp only [roundNumbers] at hnums
        try dsimp only at hnums
        have hc0 : st.room.current_round = 0 := by
          by_contra hc0
          have h1mem : 1 ∈ roundNumbers st := by
            rw [hInv.2]
            rw [List.mem_map]
            exact ⟨0, List.mem_range.mpr (by omega), rfl⟩
          have hanyt := (any_num_eq_mem st.rounds 1).mpr h1mem
          rw [hanyt] at hany
          simp at hany
        constructor
        · constructor
          · rw [hroom]
            exact htr
          · simp only [roundNumbers]
            rw [hnums, hroom]
            have hn : st.rounds.map (fun r => r.round_number) = roundNumbers st := rfl
            rw [hn, hInv.2, hc0]
            show (List.range 0).map (fun n => n + 1) ++ [1] =
              (List.range 1).map (fun n => n + 1)
            decide
        · rw [hroom]
      · exact ⟨hInv, rfl⟩

theorem findPlayerByUid_any (st : GameState) (u : Nat) (pl : Player)
    (hfind : findPlayerByUid st u = some pl) :
    (st.players.any (fun q => q.userId == u)) = true :=
  List.any_eq_true.mpr
    ⟨pl, List.mem_of_find?_eq_some hfind,
     List.find?_some (p := fun q : Player => q.userId == u) hfind⟩

theorem continue_inv (st : GameState) (u : Nat) (qa : Bool) (pk : Nat)
    (hInv : RoundInv st)
    (hok : stepOk st (Op.continueNext u qa pk) = true) :
    RoundInv (continue_to_next_round st u qa pk).2 ∧
    (continue_to_next_round st u qa pk).2.room.total_rounds =
      st.room.total_rounds := by
  unfold continue_to_next_round
  cases hfind : findPlayerByUid st u with
  | none => exact ⟨hInv, rfl⟩
  | some p =>
    simp only
    split
    · exact ⟨⟨hInv.1, hInv.2⟩, rfl⟩
    · rename_i hlt
      push_neg at hlt
      have hany := findPlayerByUid_any st u p hfind
      simp only [stepOk, hany, Bool.true_and, Bool.or_eq_true,
        Bool.not_eq_true', Bool.and_eq_true, decide_eq_true_eq,
        decide_eq_false_iff_not] at hok
      rcases hok with hok | hok
      · omega
      · obtain ⟨hqa, hconn⟩ := hok
        subst hqa
        have hnew : (st.rounds.any
            (fun r => r.round_number == st.room.current_round + 1)) = false := by
          cases hny : st.rounds.any
              (fun r => r.round_number == st.room.current_round + 1) with
          | false => rfl
          | true =>
            have hmem := (any_num_eq_mem st.rounds (st.room.current_round + 1)).mp hny
            have := hInv.2
            simp only [roundNumbers] at this
            rw [this] at hmem
            rw [List.mem_map] at hmem
            obtain ⟨k, hk, hk2⟩ := hmem
            rw [List.mem_range] at hk
            omega
        try dsimp only
        split
        · rename_i st2 hm
          obtain ⟨hroom, hnums, _⟩ := start_round_some _ _ true pk st2 hm
          try dsimp only at hroom
          simp only [roundNumbers] at hnums
          try dsimp only at hnums
          constructor
          · constructor
            · rw [hroom]
              show st.room.current_round + 1 ≤ st.room.total_rounds
              omega
            · simp only [roundNumbers]
              rw [hnums, hroom]
              have hn : st.rounds.map (fun r => r.round_number) = roundNumbers st := rfl
              rw [hn, hInv.2]
              show _ = (List.range (st.room.current_round + 1)).map (fun n => n + 1)
              rw [List.range_succ]
              simp
          · rw [hroom]
        · rename_i hm
          exact absurd hm (start_round_none _ _ pk (by exact hnew)
            (by exact hconn))

theorem step_preserve (st : GameState) (op : Op) (hInv : RoundInv st)
    (htr : 1 ≤ st.room.total_rounds) (hok : stepOk st op = true) :
    RoundInv (step st op) ∧
    (step st op).room.total_rounds = st.room.total_rounds := by
  cases op with
  | join u n t =>
    obtain ⟨h1, h2⟩ := join_room_frame st u n t
    simp only [step]
    exact ⟨RoundInv_frame st _ h1 (by simp [roundNumbers, h2]) hInv, by rw [h1]⟩
  | leave u =>
    obtain ⟨h1, h2⟩ := leave_room_frame st u
    simp only [step]
    exact ⟨RoundInv_frame st _ h1 (by simp [roundNumbers, h2]) hInv, by rw [h1]⟩
  | startGame u qa pk =>
    simp only [step]
    exact start_game_inv st u qa pk hInv htr
  | startVoting u t =>
    obtain ⟨h1, h2⟩ := start_voting_frame st u t
    simp only [step]
    exact ⟨RoundInv_frame st _ h1 h2 hInv, by rw [h1]⟩
  | submitAnswer u v t =>
    obtain ⟨h1, h2⟩ := submit_answer_frame st u v t
    simp only [step]
    exact ⟨RoundInv_frame st _ h1 h2 hInv, by rw [h1]⟩
  | submitVote u a t =>
    obtain ⟨h1, h2⟩ := submit_vote_frame st u a t
    simp only [step]
    exact ⟨RoundInv_frame st _ h1 h2 hInv, by rw [h1]⟩
  | continueNext u qa pk =>
    simp only [step]
    exact continue_inv st u qa pk hInv hok

theorem runOps_inv (ops : List Op) : ∀ st, RoundInv st →
    1 ≤ st.room.total_rounds → okTrace st ops = true →
    RoundInv (runOps st ops) := by
  induction ops with
  | nil => intro st h _ _; exact h
  | cons op ops ih =>
    intro st h htr hok
    simp only [okTrace, Bool.and_eq_true] at hok
    have hp := step_preserve st op h htr hok.1
    exact ih (step st op) hp.1 (by rw [hp.2]; exact htr) hok.2

/-- C7 (amended): starting from a freshly created room whose
total_rounds is at least 1 (the create serializer does not enforce
this bound), and along any request trace in which every
round-creation reached by a continue request succeeds (question pools
available and at least one connected player), current_round never
exceeds total_rounds and the rounds present in the room are numbered
exactly 1..current_round with no gaps.  The counterexample shows both
side conditions are necessary: with total_rounds = 0 the bound fails,
and a failed round creation leaves a durable gap. -/
theorem round_invariant_amended (hostUid : Nat) (nick : String)
    (maxP totalR : Nat) (htr : 1 ≤ totalR) (ops : List Op)
    (hok : okTrace (initState hostUid nick maxP totalR) ops = true) :
    RoundInv (runOps (initState hostUid nick maxP totalR) ops) :=
  runOps_inv ops _ ⟨Nat.zero_le _, rfl⟩ htr hok

/-- Witness for the amended C7 statement: a full three-player game
start trace keeps the invariant. -/
theorem round_invariant_amended_witness :
    RoundInv (runOps (initState 1 "h" 8 5)
      [Op.join 2 "b" 1, Op.join 3 "c" 2, Op.startGame 1 true 0]) :=
  round_invariant_amended 1 "h" 8 5 (by decide)
    [Op.join 2 "b" 1, Op.join 3 "c" 2, Op.startGame 1 true 0] (by decide)

theorem lbLE_total (a b : LBEntry) : lbLE a b = true ∨ lbLE b a = true := by
  simp only [lbLE, Bool.or_eq_true, Bool.and_eq_true, decide_eq_true_eq,
    beq_iff_eq]
  omega

theorem lbLE_trans (a b c : LBEntry) (hab : lbLE a b = true)
    (hbc : lbLE b c = true) : lbLE a c = true := by
  simp only [lbLE, Bool.or_eq_true, Bool.and_eq_true, decide_eq_true_eq,
    beq_iff_eq] at hab hbc ⊢
  omega

theorem lbInsert_perm (x : LBEntry) (l : List LBEntry) :
    List.Perm (lbInsert x l) (x :: l) := by
  induction l with
  | nil => exact List.Perm.refl _
  | cons y ys ih =>
    simp only [lbInsert]
    split
    · exact (ih.cons y).trans (List.Perm.swap x y ys)
    · exact List.Perm.refl _

theorem lbSort_perm (l : List LBEntry) : List.Perm (lbSort l) l := by
  induction l with
  | nil => exact List.Perm.refl _
  | cons x xs ih => exact (lbInsert_perm x (lbSort xs)).trans (ih.cons x)

theorem lbInsert_sorted (x : LBEntry) (l : List LBEntry)
    (hl : List.Sorted (fun a b => lbLE a b = true) l) :
    List.Sorted (fun a b => lbLE a b = true) (lbInsert x l) := by
  induction l with
  | nil => simp [lbInsert]
  | cons y ys ih =>
    rw [List.sorted_cons] at hl
    obtain ⟨hy, hys⟩ := hl
    simp only [lbInsert]
    split
    · rename_i hyx
      rw [List.sorted_cons]
      constructor
      · intro b hb
        rcases List.mem_cons.mp ((lbInsert_perm x ys).mem_iff.mp hb) with
          hbx | hbys
        · rw [hbx]; exact hyx
        · exact hy b hbys
      · exact ih hys
    · rename_i hyx
      have hxy : lbLE x y = true := by
        rcases lbLE_total x y with h | h
        · exact h
        · exact absurd h hyx
      rw [List.sorted_cons]
      constructor
      · intro b hb
        rcases List.mem_cons.mp hb with hbx | hbys
        · rw [hbx]; exact hxy
        · exact lbLE_trans x y b hxy (hy b hbys)
      · rw [List.sorted_cons]
        exact ⟨hy, hys⟩

theorem lbSort_sorted (l : List LBEntry) :
    List.Sorted (fun a b => lbLE a b = true) (lbSort l) := by
  induction l with
  | nil => simp [lbSort]
  | cons x xs ih => exact lbInsert_sorted x (lbSort xs) ih

theorem assignRanks_get (l : List LBEntry) :
    ∀ (n i : Nat) (h : i < (assignRanks n l).length),
      ((assignRanks n l).get ⟨i, h⟩).rank = n + i := by
  induction l with
  | nil => intro n i h; simp [assignRanks] at h
  | cons x xs ih =>
    intro n i h
    cases i with
    | zero => simp [assignRanks]
    | succ j =>
      have hj : j < (assignRanks (n + 1) xs).length := by
        simpa [assignRanks] using h
      have := ih (n + 1) j hj
      simp only [assignRanks, List.get_cons_succ]
      rw [this]
      omega

theorem assignRanks_forall (l : List LBEntry) (P : Nat → Prop)
    (h : ∀ x ∈ l, P x.total_games) :
    ∀ n, ∀ x ∈ assignRanks n l, P x.total_games := by
  induction l with
  | nil => intro n x hx; simp [assignRanks] at hx
  | cons y ys ih =>
    intro n x hx
    rcases List.mem_cons.mp hx with hxy | hxs
    · rw [hxy]
      exact h y (List.mem_cons_self y ys)
    · exact ih (fun z hz => h z (List.mem_cons_of_mem y hz)) (n + 1) x hxs

/-- C8 (amended): each aggregation pass excludes identities with zero
in-window games and sorts the rest by (score desc, wins desc), but
the rank it assigns is the sequential 1-based position in the sorted
order (Python enumerate), not a dense rank: identities with equal
score and wins receive distinct consecutive ranks. -/
theorem leaderboard_pass_spec (userIds : List Nat) (rows : List StatRow)
    (s e : Nat) :
    updateLeaderboardPeriod userIds rows s e =
      assignRanks 1 (lbSort ((userIds.map (aggregateUser rows s e)).filter
        (fun x => 0 < x.total_games))) ∧
    List.Perm
      (lbSort ((userIds.map (aggregateUser rows s e)).filter
        (fun x => 0 < x.total_games)))
      ((userIds.map (aggregateUser rows s e)).filter
        (fun x => 0 < x.total_games)) ∧
    List.Sorted (fun a b => lbLE a b = true)
      (lbSort ((userIds.map (aggregateUser rows s e)).filter
        (fun x => 0 < x.total_games))) ∧
    (∀ x ∈ updateLeaderboardPeriod userIds rows s e, 0 < x.total_games) ∧
    (∀ (i : Nat) (h : i < (updateLeaderboardPeriod userIds rows s e).length),
      ((updateLeaderboardPeriod userIds rows s e).get ⟨i, h⟩).rank = i + 1) := by
  refine ⟨rfl, lbSort_perm _, lbSort_sorted _, ?_, ?_⟩
  · have hfil : ∀ x ∈ (userIds.map (aggregateUser rows s e)).filter
        (fun x => 0 < x.total_games), 0 < x.total_games := by
      intro x hx
      have := (List.mem_filter.mp hx).2
      simpa using this
    have hsor : ∀ x ∈ lbSort ((userIds.map (aggregateUser rows s e)).filter
        (fun x => 0 < x.total_games)), 0 < x.total_games := by
      intro x hx
      exact hfil x ((lbSort_perm _).mem_iff.mp hx)
    exact assignRanks_forall _ (fun g => 0 < g) hsor 1
  · intro i h
    have hget := assignRanks_get
      (lbSort ((userIds.map (aggregateUser rows s e)).filter
        (fun x => 0 < x.total_games))) 1 i h
    exact hget.trans (Nat.add_comm 1 i)

/-- Witness for the amended C8 statement at the concrete two-identity
input. -/
theorem leaderboard_pass_spec_witness :
    (∀ x ∈ updateLeaderboardPeriod [1, 2] c8rows 0 10, 0 < x.total_games) ∧
    ((updateLeaderboardPeriod [1, 2] c8rows 0 10).get ⟨0, by decide⟩).rank = 1 :=
  ⟨(leaderboard_pass_spec [1, 2] c8rows 0 10).2.2.2.1,
   (leaderboard_pass_spec [1, 2] c8rows 0 10).2.2.2.2 0 (by decide)⟩

end Game
